import Mathlib

set_option maxHeartbeats 1000000

/-! Shallow embedding of the Bayesian-Spaced-Repetition core
(src/backend/app.py and src/backend/config.py).

Python floats are modelled as real numbers, except where a claim is about
IEEE behaviour at a division by zero, where an explicit `FloatVal` codomain
with a NaN point is used.  The card store `all_cards` is a Python dict whose
keys are assigned as `len(all_cards)` and never deleted, so its keys are
exactly `0 .. n-1` and iteration order is ascending id; it is modelled as a
`List Card` indexed by id.  The similarity matrix is a dict on pairs of ids,
modelled as `ℕ × ℕ → Option ℝ` (`none` = key absent, a lookup of an absent
key raises `KeyError`). -/

/-- config.py line 8: `PRIOR_ALPHA = 1.0`. -/
noncomputable def PRIOR_ALPHA : ℝ := 1.0

/-- config.py line 9: `PRIOR_BETA = 1.0`. -/
noncomputable def PRIOR_BETA : ℝ := 1.0

/-- config.py line 12: `M_decay = 3`. -/
noncomputable def M_decay : ℝ := 3

/-- config.py line 19: `UNCERTAINTY_FACTOR = 0.5`. -/
noncomputable def UNCERTAINTY_FACTOR : ℝ := 0.5

/-- One entry of the `all_cards` dict (app.py lines 83-94):
question, answer, alpha, beta, embedding. -/
structure Card where
  question : String
  answer : String
  alpha : ℝ
  beta : ℝ
  embedding : List ℝ

instance : Inhabited Card := ⟨⟨"", "", 0, 0, []⟩⟩

/-- The similarity matrix dict (app.py line 97): partial map on id pairs. -/
def SimMatrix : Type := ℕ × ℕ → Option ℝ

/-- The shared mutable state: `all_cards` (index = card id, list order =
dict insertion order = ascending id) and `similarity_matrix`. -/
structure State where
  all_cards : List Card
  similarity_matrix : SimMatrix

/-- Process start: both dicts empty (app.py lines 94, 97). -/
def initialState : State := ⟨[], fun _ => none⟩

/-- Dict store `similarity_matrix[key] = v`. -/
def mset (m : SimMatrix) (key : ℕ × ℕ) (v : ℝ) : SimMatrix :=
  fun p => if p = key then some v else m p

/-- Dot product of two embeddings, `numpy.dot` on equal-length vectors. -/
def dotList (a b : List ℝ) : ℝ := (List.zipWith (fun x y => x * y) a b).sum

/-- Euclidean norm of an embedding, `numpy.linalg.norm`. -/
noncomputable def normList (a : List ℝ) : ℝ := Real.sqrt ((a.map (fun x => x ^ 2)).sum)

/-- app.py lines 146-147, idealised over ℝ:
`dot(e1, e2) / (norm(e1) * norm(e2))`.  Lean division returns 0 at a zero
denominator; the faithful IEEE behaviour at that point is captured by
`compute_similarity_float` below. -/
noncomputable def compute_similarity (embedding1 embedding2 : List ℝ) : ℝ :=
  dotList embedding1 embedding2 / (normList embedding1 * normList embedding2)

/-- Result of an IEEE float division: a real value, an infinity (sign
irrelevant here), or NaN. -/
inductive FloatVal where
  | real (x : ℝ)
  | inf
  | nan

/-- app.py lines 146-147 with IEEE division semantics: `c / 0` is NaN when
`c = 0` and an infinity otherwise; the division is performed unguarded. -/
noncomputable def compute_similarity_float (embedding1 embedding2 : List ℝ) : FloatVal :=
  let d := dotList embedding1 embedding2
  let nn := normList embedding1 * normList embedding2
  if nn = 0 then (if d = 0 then FloatVal.nan else FloatVal.inf)
  else FloatVal.real (d / nn)

/-- app.py lines 199-200: `math.exp(-config.M_decay * (1 - similarity_score))`. -/
noncomputable def compute_update (similarity_score : ℝ) : ℝ :=
  Real.exp (-M_decay * (1 - similarity_score))

/-- List update at one index, the effect of `all_cards[other_id][...] += u`
on the store. -/
def modifyNth (f : Card → Card) : ℕ → List Card → List Card
  | _, [] => []
  | 0, c :: cs => f c :: cs
  | n + 1, c :: cs => c :: modifyNth f n cs

/-- Body of the `answer` loop branch (app.py lines 162-165): on a correct
answer add `update` to alpha, otherwise to beta. -/
noncomputable def applyUpd (is_correct : Bool) (update : ℝ) (c : Card) : Card :=
  if is_correct then { c with alpha := c.alpha + update }
  else { c with beta := c.beta + update }

/-- A lookup `similarity_matrix[card_id, other_id]` of an absent key raises
`KeyError`, an uncaught exception: the route crashes (HTTP 500), it does not
return a typed error response. -/
inductive PyError where
  | keyError
deriving DecidableEq

/-- The `for other_id in all_cards:` loop of `answer` (app.py lines 159-165),
iterating over the given id list.  Each step looks the similarity up (a
missing key raises `KeyError` and aborts the loop; mutations already made to
the global state persist) and adds `compute_update` of it to the card's
alpha or beta. -/
noncomputable def answerLoop (card_id : ℕ) (is_correct : Bool) :
    List ℕ → State → State × Option PyError
  | [], st => (st, none)
  | other_id :: rest, st =>
    match st.similarity_matrix (card_id, other_id) with
    | none => (st, some PyError.keyError)
    | some s =>
      let update := compute_update s
      answerLoop card_id is_correct rest
        ⟨modifyNth (applyUpd is_correct update) other_id st.all_cards,
         st.similarity_matrix⟩

/-- app.py lines 149-167, route `/api/answer`: run the update loop over the
dict keys `0 .. n-1` in iteration order.  Returns the state after the call
together with the exception, if one was raised. -/
noncomputable def answer (st : State) (card_id : ℕ) (is_correct : Bool) :
    State × Option PyError :=
  answerLoop card_id is_correct (List.range st.all_cards.length) st

/-- Body of the similarity-registration loop of `add_cards` (app.py lines
136-139): for each existing id `j` (the new card included) store the score
under both orderings of the pair. -/
noncomputable def writeSims (cards : List Card) (new_id : ℕ) (emb : List ℝ) :
    List ℕ → SimMatrix → SimMatrix
  | [], m => m
  | j :: rest, m =>
    let s := compute_similarity emb ((cards.get? j).getD default).embedding
    writeSims cards new_id emb rest (mset (mset m (new_id, j) s) (j, new_id) s)

/-- One iteration of the `add_cards` loop (app.py lines 120-139) once the
embedding has been obtained: `card_id = len(all_cards)`, insert the card
with the prior parameters, then register its similarity to every card now in
the store (itself included). -/
noncomputable def add_card (st : State) (front back : String) (emb : List ℝ) : State :=
  let card_id := st.all_cards.length
  let cards' := st.all_cards ++ [⟨front, back, PRIOR_ALPHA, PRIOR_BETA, emb⟩]
  ⟨cards', writeSims cards' card_id emb (List.range (card_id + 1)) st.similarity_matrix⟩

/-- Failure of `get_embedding` (missing key, network error): an exception
raised before any mutation of the store for this card. -/
inductive ProviderError where
  | providerFailure
deriving DecidableEq

/-- One `add_cards` iteration with its embedding-provider call: the provider
is consulted first (app.py line 125); if it raises, the state is untouched,
otherwise the card is fully registered. -/
noncomputable def add_card_op (st : State) (front back : String)
    (emb : Option (List ℝ)) : State × Option ProviderError :=
  match emb with
  | none => (st, some ProviderError.providerFailure)
  | some e => (add_card st front back e, none)

/-- Mastery of a card, `alpha / (alpha + beta)` (app.py line 235). -/
noncomputable def mastery (c : Card) : ℝ := c.alpha / (c.alpha + c.beta)

/-- The inner `score` of `get_next_card_id` (app.py lines 180-193). -/
noncomputable def score (st : State) (cid : ℕ) : ℝ :=
  let c := (st.all_cards.get? cid).getD default
  let total := c.alpha + c.beta
  (1 - UNCERTAINTY_FACTOR) * (c.alpha / total) - UNCERTAINTY_FACTOR * (1 / total)

/-- Python `min(xs, key)` : scan left to right keeping the current best and
replacing it only on a strictly smaller key, so the first minimal element in
iteration order wins; `none` on an empty list (Python raises ValueError). -/
noncomputable def minByKey (key : ℕ → ℝ) : List ℕ → Option ℕ
  | [] => none
  | x :: xs => some (xs.foldl (fun best y => if key y < key best then y else best) x)

/-- app.py lines 179-195: `min(all_cards.keys(), key=score)`; dict key
iteration order is ascending id. -/
noncomputable def get_next_card_id (st : State) : Option ℕ :=
  minByKey (score st) (List.range st.all_cards.length)

/-- The error response of `/api/next` on an empty store (app.py lines
205-206): a JSON error with HTTP 400, returned to the caller. -/
inductive ApiError where
  | emptyStore
deriving DecidableEq

/-- app.py lines 202-211, route `/api/next`: guard the empty store with a
400 error response, otherwise select the next card id and return its
question, answer and id. -/
noncomputable def get_next_card (st : State) : Except ApiError (String × String × ℕ) :=
  match st.all_cards with
  | [] => Except.error ApiError.emptyStore
  | _ :: _ =>
    let next_card_id := (get_next_card_id st).getD 0
    let c := (st.all_cards.get? next_card_id).getD default
    Except.ok (c.question, c.answer, next_card_id)

/-- States reachable from process start by the two mutating routes:
`add_cards` iterations (with an arbitrary provider-returned embedding) and
`answer` calls (with arbitrary, possibly unknown, card id).  Read-only
routes do not change the state. -/
inductive Reachable : State → Prop
  | init : Reachable initialState
  | add (st : State) (front back : String) (emb : List ℝ) :
      Reachable st → Reachable (add_card st front back emb)
  | ans (st : State) (card_id : ℕ) (is_correct : Bool) :
      Reachable st → Reachable (answer st card_id is_correct).1

/-! ### Helper lemmas about the embedded operations -/

theorem modifyNth_length (f : Card → Card) (n : ℕ) (l : List Card) :
    (modifyNth f n l).length = l.length := by
  induction l generalizing n with
  | nil => cases n <;> rfl
  | cons c cs ih => cases n with
    | zero => rfl
    | succ m => simp [modifyNth, ih]

theorem modifyNth_get_self (f : Card → Card) (n : ℕ) (l : List Card) :
    (modifyNth f n l).get? n = (l.get? n).map f := by
  induction l generalizing n with
  | nil => cases n <;> rfl
  | cons c cs ih => cases n with
    | zero => rfl
    | succ m => simpa [modifyNth] using ih m

theorem modifyNth_get_other (f : Card → Card) {n j : ℕ} (h : j ≠ n) (l : List Card) :
    (modifyNth f n l).get? j = l.get? j := by
  induction l generalizing n j with
  | nil => cases n <;> rfl
  | cons c cs ih =>
    cases n with
    | zero =>
      cases j with
      | zero => exact absurd rfl h
      | succ i => rfl
    | succ m =>
      cases j with
      | zero => rfl
      | succ i => simpa [modifyNth] using ih (fun hh => h (by omega))

theorem modifyNth_forall {P : Card → Prop} (f : Card → Card) (n : ℕ) (l : List Card)
    (hl : ∀ c ∈ l, P c) (hf : ∀ c, P c → P (f c)) :
    ∀ c ∈ modifyNth f n l, P c := by
  induction l generalizing n with
  | nil => intro c hc; cases n <;> simp [modifyNth] at hc
  | cons a as ih =>
    cases n with
    | zero =>
      intro c hc
      rcases List.mem_cons.mp hc with h1 | h1
      · exact h1 ▸ hf a (hl a (List.mem_cons_self _ _))
      · exact hl c (List.mem_cons_of_mem _ h1)
    | succ m =>
      intro c hc
      rcases List.mem_cons.mp hc with h1 | h1
      · exact h1 ▸ hl a (List.mem_cons_self _ _)
      · exact ih m (fun x hx => hl x (List.mem_cons_of_mem _ hx)) c h1

theorem compute_update_pos (s : ℝ) : 0 < compute_update s := Real.exp_pos _

theorem answerLoop_matrix (card_id : ℕ) (b : Bool) (l : List ℕ) :
    ∀ st : State, (answerLoop card_id b l st).1.similarity_matrix = st.similarity_matrix := by
  induction l with
  | nil => intro st; rfl
  | cons i rest ih =>
    intro st
    unfold answerLoop
    cases h : st.similarity_matrix (card_id, i) with
    | none => rfl
    | some s => exact ih _

theorem answerLoop_length (card_id : ℕ) (b : Bool) (l : List ℕ) :
    ∀ st : State, (answerLoop card_id b l st).1.all_cards.length = st.all_cards.length := by
  induction l with
  | nil => intro st; rfl
  | cons i rest ih =>
    intro st
    unfold answerLoop
    cases h : st.similarity_matrix (card_id, i) with
    | none => rfl
    | some s =>
      have h2 := ih ⟨modifyNth (applyUpd b (compute_update s)) i st.all_cards,
        st.similarity_matrix⟩
      simpa [modifyNth_length] using h2

theorem answerLoop_pos (card_id : ℕ) (b : Bool) (l : List ℕ) :
    ∀ st : State, (∀ c ∈ st.all_cards, 0 < c.alpha ∧ 0 < c.beta) →
    ∀ c ∈ (answerLoop card_id b l st).1.all_cards, 0 < c.alpha ∧ 0 < c.beta := by
  induction l with
  | nil => intro st h; exact h
  | cons i rest ih =>
    intro st h
    unfold answerLoop
    cases hm : st.similarity_matrix (card_id, i) with
    | none => exact h
    | some s =>
      refine ih _ (modifyNth_forall _ i _ h ?_)
      intro c hc
      unfold applyUpd
      cases b <;> simp only [Bool.false_eq_true, if_true, if_false, reduceIte] <;>
        constructor <;> [skip; skip; skip; skip] <;> first
        | exact hc.1
        | exact hc.2
        | exact add_pos hc.1 (compute_update_pos s)
        | exact add_pos hc.2 (compute_update_pos s)

theorem answerLoop_cons_some (card_id : ℕ) (b : Bool) (i : ℕ) (rest : List ℕ)
    (st : State) (s : ℝ) (h : st.similarity_matrix (card_id, i) = some s) :
    answerLoop card_id b (i :: rest) st =
      answerLoop card_id b rest
        ⟨modifyNth (applyUpd b (compute_update s)) i st.all_cards,
         st.similarity_matrix⟩ := by
  have hdef : answerLoop card_id b (i :: rest) st =
      match st.similarity_matrix (card_id, i) with
      | none => (st, some PyError.keyError)
      | some s =>
        answerLoop card_id b rest
          ⟨modifyNth (applyUpd b (compute_update s)) i st.all_cards,
           st.similarity_matrix⟩ := rfl
  rw [hdef, h]

theorem answerLoop_fail_head (card_id : ℕ) (b : Bool) (i : ℕ) (rest : List ℕ)
    (st : State) (h : st.similarity_matrix (card_id, i) = none) :
    answerLoop card_id b (i :: rest) st = (st, some PyError.keyError) := by
  have hdef : answerLoop card_id b (i :: rest) st =
      match st.similarity_matrix (card_id, i) with
      | none => (st, some PyError.keyError)
      | some s =>
        answerLoop card_id b rest
          ⟨modifyNth (applyUpd b (compute_update s)) i st.all_cards,
           st.similarity_matrix⟩ := rfl
  rw [hdef, h]

theorem answerLoop_spec (card_id : ℕ) (b : Bool) (sim : ℕ → ℝ) (l : List ℕ) :
    ∀ st : State, l.Nodup →
    (∀ i ∈ l, st.similarity_matrix (card_id, i) = some (sim i)) →
    (answerLoop card_id b l st).2 = none ∧
    ∀ j : ℕ, (answerLoop card_id b l st).1.all_cards.get? j =
      if j ∈ l then (st.all_cards.get? j).map (applyUpd b (compute_update (sim j)))
      else st.all_cards.get? j := by
  induction l with
  | nil =>
    intro st _ _
    refine ⟨rfl, fun j => ?_⟩
    rw [if_neg (List.not_mem_nil j)]
    rfl
  | cons i rest ih =>
    intro st hnd hsim
    have hi : st.similarity_matrix (card_id, i) = some (sim i) :=
      hsim i (List.mem_cons_self _ _)
    have hstep := answerLoop_cons_some card_id b i rest st (sim i) hi
    have hrest := ih
      ⟨modifyNth (applyUpd b (compute_update (sim i))) i st.all_cards,
       st.similarity_matrix⟩
      (List.Nodup.of_cons hnd)
      (fun j hj => hsim j (List.mem_cons_of_mem _ hj))
    have hnotmem : i ∉ rest := (List.nodup_cons.mp hnd).1
    refine ⟨by rw [hstep]; exact hrest.1, ?_⟩
    intro j
    rw [hstep, hrest.2 j]
    by_cases hji : j = i
    · subst hji
      rw [if_neg hnotmem, if_pos (List.mem_cons_self _ _)]
      exact modifyNth_get_self _ _ _
    · by_cases hjr : j ∈ rest
      · rw [if_pos hjr, if_pos (List.mem_cons_of_mem _ hjr),
          modifyNth_get_other _ hji]
      · rw [if_neg hjr,
          if_neg (fun hc => (List.mem_cons.mp hc).elim hji hjr),
          modifyNth_get_other _ hji]

/-- Symmetry of a similarity matrix: both orderings of each pair agree. -/
def SymmM (m : SimMatrix) : Prop := ∀ i j : ℕ, m (i, j) = m (j, i)

/-- Domain of a similarity matrix: exactly the pairs of registered ids. -/
def DomM (m : SimMatrix) (n : ℕ) : Prop :=
  ∀ i j : ℕ, (m (i, j)).isSome ↔ (i < n ∧ j < n)

theorem mset_symm_pair {m : SimMatrix} (hm : SymmM m) (a c : ℕ) (s : ℝ) :
    SymmM (mset (mset m (a, c) s) (c, a) s) := by
  intro i j
  simp only [mset, Prod.mk.injEq]
  by_cases h1 : i = c ∧ j = a <;> by_cases h2 : i = a ∧ j = c
  · rw [if_pos h1, if_pos ⟨h2.2, h2.1⟩]
  · rw [if_pos h1, if_neg (fun hh => h2 ⟨hh.2, hh.1⟩), if_pos ⟨h1.2, h1.1⟩]
  · rw [if_neg h1, if_pos h2, if_pos ⟨h2.2, h2.1⟩]
  · rw [if_neg h1, if_neg h2, if_neg (fun hh => h2 ⟨hh.2, hh.1⟩),
      if_neg (fun hh => h1 ⟨hh.2, hh.1⟩)]
    exact hm i j

theorem writeSims_symm (cards : List Card) (n : ℕ) (emb : List ℝ) (l : List ℕ) :
    ∀ m : SimMatrix, SymmM m → SymmM (writeSims cards n emb l m) := by
  induction l with
  | nil => intro m hm; exact hm
  | cons j rest ih => intro m hm; exact ih _ (mset_symm_pair hm n j _)

theorem writeSims_isSome (cards : List Card) (n : ℕ) (emb : List ℝ) (l : List ℕ) :
    ∀ (m : SimMatrix) (p : ℕ × ℕ),
    (writeSims cards n emb l m p).isSome ↔
      ((m p).isSome ∨ (p.1 = n ∧ p.2 ∈ l) ∨ (p.2 = n ∧ p.1 ∈ l)) := by
  induction l with
  | nil => intro m p; simp [writeSims]
  | cons j rest ih =>
    intro m p
    obtain ⟨x, y⟩ := p
    unfold writeSims
    rw [ih]
    simp only [mset, Prod.mk.injEq, List.mem_cons]
    by_cases h1 : x = j ∧ y = n
    · obtain ⟨hx, hy⟩ := h1
      subst hx
      subst hy
      rw [if_pos ⟨rfl, rfl⟩]
      simp
    · by_cases h2 : x = n ∧ y = j
      · obtain ⟨hx, hy⟩ := h2
        subst hx
        subst hy
        rw [if_neg h1, if_pos ⟨rfl, rfl⟩]
        simp
      · rw [if_neg h1, if_neg h2]
        tauto

theorem add_card_cards (st : State) (f b : String) (e : List ℝ) :
    (add_card st f b e).all_cards =
      st.all_cards ++ [⟨f, b, PRIOR_ALPHA, PRIOR_BETA, e⟩] := rfl

theorem add_card_length (st : State) (f b : String) (e : List ℝ) :
    (add_card st f b e).all_cards.length = st.all_cards.length + 1 := by
  rw [add_card_cards]
  simp

theorem add_card_matrix (st : State) (f b : String) (e : List ℝ) :
    (add_card st f b e).similarity_matrix =
      writeSims (st.all_cards ++ [⟨f, b, PRIOR_ALPHA, PRIOR_BETA, e⟩])
        st.all_cards.length e (List.range (st.all_cards.length + 1))
        st.similarity_matrix := rfl

theorem add_card_dom (st : State) (f b : String) (e : List ℝ)
    (h : DomM st.similarity_matrix st.all_cards.length) :
    DomM (add_card st f b e).similarity_matrix
      (add_card st f b e).all_cards.length := by
  rw [add_card_length]
  intro i j
  rw [add_card_matrix, writeSims_isSome, h i j]
  simp only [List.mem_range]
  omega

theorem answer_matrix (st : State) (cid : ℕ) (b : Bool) :
    (answer st cid b).1.similarity_matrix = st.similarity_matrix :=
  answerLoop_matrix cid b _ st

theorem answer_length (st : State) (cid : ℕ) (b : Bool) :
    (answer st cid b).1.all_cards.length = st.all_cards.length :=
  answerLoop_length cid b _ st

/-- The reachable-state invariant: strictly positive Beta parameters, a
symmetric similarity matrix, and a matrix defined on exactly the pairs of
registered ids. -/
structure StoreInv (st : State) : Prop where
  pos : ∀ c ∈ st.all_cards, 0 < c.alpha ∧ 0 < c.beta
  symm : SymmM st.similarity_matrix
  dom : DomM st.similarity_matrix st.all_cards.length

theorem reachable_inv {st : State} (h : Reachable st) : StoreInv st := by
  induction h with
  | init =>
    refine ⟨?_, ?_, ?_⟩
    · intro c hc
      simp [initialState] at hc
    · intro i j
      rfl
    · intro i j
      simp [initialState]
  | add st f b e hst ih =>
    refine ⟨?_, ?_, ?_⟩
    · intro c hc
      rw [add_card_cards] at hc
      rcases List.mem_append.mp hc with h1 | h1
      · exact ih.pos c h1
      · have hc2 : c = ⟨f, b, PRIOR_ALPHA, PRIOR_BETA, e⟩ := by simpa using h1
        subst hc2
        constructor <;> norm_num [PRIOR_ALPHA, PRIOR_BETA]
    · rw [add_card_matrix]
      exact writeSims_symm _ _ _ _ _ ih.symm
    · exact add_card_dom st f b e ih.dom
  | ans st cid b hst ih =>
    refine ⟨?_, ?_, ?_⟩
    · exact answerLoop_pos cid b _ st ih.pos
    · rw [answer_matrix]
      exact ih.symm
    · rw [answer_matrix, answer_length]
      exact ih.dom

theorem minByKey_snoc (key : ℕ → ℝ) (l : List ℕ) (a : ℕ) :
    minByKey key (l ++ [a]) =
      match minByKey key l with
      | none => some a
      | some r => some (if key a < key r then a else r) := by
  cases l with
  | nil => rfl
  | cons x xs => simp [minByKey, List.foldl_append]

theorem minByKey_range_spec (key : ℕ → ℝ) :
    ∀ n : ℕ, 0 < n →
    ∃ r, minByKey key (List.range n) = some r ∧ r < n ∧
      (∀ i, i < n → key r ≤ key i) ∧ (∀ i, i < r → key r < key i) := by
  intro n
  induction n with
  | zero => intro h; exact absurd h (lt_irrefl 0)
  | succ m ih =>
    intro _
    rcases Nat.eq_zero_or_pos m with hm | hm
    · subst hm
      refine ⟨0, ?_, Nat.zero_lt_one, ?_, ?_⟩
      · simp [minByKey, show List.range 1 = [0] from rfl]
      · intro i hi
        have : i = 0 := by omega
        subst this
        exact le_refl _
      · intro i hi
        exact absurd hi (Nat.not_lt_zero i)
    · obtain ⟨r, hmin, hr, hle, hlt⟩ := ih hm
      rw [List.range_succ, minByKey_snoc, hmin]
      by_cases hcmp : key m < key r
      · refine ⟨m, by simp [hcmp], Nat.lt_succ_self m, ?_, ?_⟩
        · intro i hi
          rcases Nat.lt_succ_iff_lt_or_eq.mp hi with h1 | h1
          · exact le_of_lt (lt_of_lt_of_le hcmp (hle i h1))
          · subst h1
            exact le_refl _
        · intro i hi
          exact lt_of_lt_of_le hcmp (hle i hi)
      · refine ⟨r, by simp [hcmp], Nat.lt_succ_of_lt hr, ?_, hlt⟩
        intro i hi
        rcases Nat.lt_succ_iff_lt_or_eq.mp hi with h1 | h1
        · exact hle i h1
        · subst h1
          exact not_lt.mp hcmp

theorem get_next_card_eq_of_ne (st : State) (hne : st.all_cards ≠ []) :
    get_next_card st =
      Except.ok
        (((st.all_cards.get? ((get_next_card_id st).getD 0)).getD default).question,
         ((st.all_cards.get? ((get_next_card_id st).getD 0)).getD default).answer,
         (get_next_card_id st).getD 0) := by
  obtain ⟨cards, m⟩ := st
  cases cards with
  | nil => exact absurd rfl hne
  | cons c0 rest => rfl

theorem sum_sq_nonneg (l : List ℝ) : 0 ≤ (l.map (fun x => x ^ 2)).sum := by
  apply List.sum_nonneg
  intro y hy
  obtain ⟨z, _, rfl⟩ := List.mem_map.mp hy
  positivity

theorem sum_sq_eq_zero : ∀ l : List ℝ, (l.map (fun x => x ^ 2)).sum = 0 →
    ∀ x ∈ l, x = 0 := by
  intro l
  induction l with
  | nil => intro _ x hx; cases hx
  | cons a as ih =>
    intro h x hx
    simp only [List.map_cons, List.sum_cons] at h
    have ha : 0 ≤ a ^ 2 := sq_nonneg a
    have hs : 0 ≤ (as.map (fun x => x ^ 2)).sum := sum_sq_nonneg as
    have ha0 : a ^ 2 = 0 := by linarith
    have hs0 : (as.map (fun x => x ^ 2)).sum = 0 := by linarith
    rcases List.mem_cons.mp hx with h1 | h1
    · rw [h1]
      exact sq_eq_zero_iff.mp ha0
    · exact ih hs0 x h1

theorem normList_eq_zero {l : List ℝ} (h : normList l = 0) : ∀ x ∈ l, x = 0 := by
  have hs : (l.map (fun x => x ^ 2)).sum = 0 :=
    (Real.sqrt_eq_zero (sum_sq_nonneg l)).mp h
  exact sum_sq_eq_zero l hs

theorem dotList_cons (x y : ℝ) (xs ys : List ℝ) :
    dotList (x :: xs) (y :: ys) = x * y + dotList xs ys := by
  simp [dotList]

theorem dotList_zero_left : ∀ a b : List ℝ, (∀ x ∈ a, x = 0) → dotList a b = 0
  | [], _, _ => by simp [dotList]
  | _ :: _, [], _ => by simp [dotList]
  | x :: xs, y :: ys, h => by
    rw [dotList_cons, h x (List.mem_cons_self _ _), zero_mul, zero_add]
    exact dotList_zero_left xs ys (fun z hz => h z (List.mem_cons_of_mem _ hz))

theorem dotList_zero_right : ∀ a b : List ℝ, (∀ x ∈ b, x = 0) → dotList a b = 0
  | [], _, _ => by simp [dotList]
  | _ :: _, [], _ => by simp [dotList]
  | x :: xs, y :: ys, h => by
    rw [dotList_cons, h y (List.mem_cons_self _ _), mul_zero, zero_add]
    exact dotList_zero_right xs ys (fun z hz => h z (List.mem_cons_of_mem _ hz))

/-- A concrete reachable state: the store after one `add_cards` iteration
adding a card with embedding `[1]` to the empty store. -/
noncomputable def exState : State := add_card initialState "q" "a" [1]

theorem exState_reachable : Reachable exState :=
  Reachable.add initialState "q" "a" [1] Reachable.init

theorem exState_cards :
    exState.all_cards = [⟨"q", "a", PRIOR_ALPHA, PRIOR_BETA, [1]⟩] := rfl

theorem exState_length : exState.all_cards.length = 1 := rfl

theorem normList_single (x : ℝ) (h : 0 ≤ x) : normList [x] = x := by
  simp only [normList, List.map_cons, List.map_nil, List.sum_cons, List.sum_nil,
    add_zero]
  rw [Real.sqrt_sq h]

theorem compute_similarity_self_one : compute_similarity [1] [1] = 1 := by
  unfold compute_similarity
  rw [normList_single 1 zero_le_one]
  simp [dotList]

theorem exState_sim00 : exState.similarity_matrix (0, 0) = some 1 := by
  have hm : exState.similarity_matrix =
      writeSims [⟨"q", "a", PRIOR_ALPHA, PRIOR_BETA, [1]⟩] 0 [1] (List.range 1)
        (fun _ => none) := rfl
  rw [hm, show List.range 1 = [0] from rfl]
  simp [writeSims, mset, compute_similarity_self_one]

/-! ### The claims -/

/-- C1: for every card currently in the store (the answered card included),
`answer` computes `update = exp(-decay * (1 - sim(card_id, other_id)))` and
adds it to that card's alpha when `is_correct` is true, otherwise to its
beta; no card in the store is skipped, no exception is raised, and the store
keeps its length. -/
theorem answer_updates_every_card (st : State) (card_id : ℕ) (is_correct : Bool)
    (sim : ℕ → ℝ)
    (hsim : ∀ i, i < st.all_cards.length →
      st.similarity_matrix (card_id, i) = some (sim i)) :
    (answer st card_id is_correct).2 = none ∧
    (answer st card_id is_correct).1.all_cards.length = st.all_cards.length ∧
    ∀ i, i < st.all_cards.length →
      (answer st card_id is_correct).1.all_cards.get? i =
        (st.all_cards.get? i).map
          (applyUpd is_correct (Real.exp (-M_decay * (1 - sim i)))) := by
  have h := answerLoop_spec card_id is_correct sim (List.range st.all_cards.length) st
    (List.nodup_range _) (fun i hi => hsim i (List.mem_range.mp hi))
  refine ⟨h.1, answer_length st card_id is_correct, ?_⟩
  intro i hi
  have h2 := h.2 i
  rw [if_pos (List.mem_range.mpr hi)] at h2
  exact h2

theorem answer_updates_every_card_witness :
    (∀ i, i < exState.all_cards.length →
      exState.similarity_matrix (0, i) = some ((fun _ => (1 : ℝ)) i)) ∧
    ((answer exState 0 true).2 = none ∧
     (answer exState 0 true).1.all_cards.length = exState.all_cards.length ∧
     ∀ i, i < exState.all_cards.length →
       (answer exState 0 true).1.all_cards.get? i =
         (exState.all_cards.get? i).map
           (applyUpd true (Real.exp (-M_decay * (1 - (fun _ => (1 : ℝ)) i))))) := by
  have hsim : ∀ i, i < exState.all_cards.length →
      exState.similarity_matrix (0, i) = some ((fun _ => (1 : ℝ)) i) := by
    intro i hi
    rw [exState_length] at hi
    have hi0 : i = 0 := by omega
    subst hi0
    exact exState_sim00
  exact ⟨hsim, answer_updates_every_card exState 0 true (fun _ => 1) hsim⟩

/-- C2: on a non-empty store `get_next_card_id` returns the id minimizing
`score = (1 - w) * expectation - w * uncertainty` with ties broken by the
lowest id (the first minimal element of the ascending-id iteration order);
the last conjunct states that the returned id is uniquely determined by
those properties, so repeated calls on an unchanged state — the operation is
a pure function of the state and writes nothing — always return the same
id. -/
theorem next_card_minimizes_score (st : State) (h : 0 < st.all_cards.length) :
    ∃ r, get_next_card_id st = some r ∧ r < st.all_cards.length ∧
      (∀ i, i < st.all_cards.length → score st r ≤ score st i) ∧
      (∀ i, i < r → score st r < score st i) ∧
      (∀ r', r' < st.all_cards.length →
        (∀ i, i < st.all_cards.length → score st r' ≤ score st i) →
        (∀ i, i < r' → score st r' < score st i) → r' = r) := by
  obtain ⟨r, hmin, hr, hle, hlt⟩ := minByKey_range_spec (score st) _ h
  refine ⟨r, hmin, hr, hle, hlt, ?_⟩
  intro r' hr' hle' hlt'
  rcases lt_trichotomy r' r with hc | hc | hc
  · have h1 := hlt r' hc
    have h2 := hle' r hr
    exact absurd (lt_of_le_of_lt h2 h1) (lt_irrefl _)
  · exact hc
  · have h1 := hlt' r hc
    have h2 := hle r' hr'
    exact absurd (lt_of_le_of_lt h2 h1) (lt_irrefl _)

theorem next_card_minimizes_score_witness :
    0 < exState.all_cards.length ∧
    ∃ r, get_next_card_id exState = some r ∧ r < exState.all_cards.length ∧
      (∀ i, i < exState.all_cards.length → score exState r ≤ score exState i) ∧
      (∀ i, i < r → score exState r < score exState i) ∧
      (∀ r', r' < exState.all_cards.length →
        (∀ i, i < exState.all_cards.length → score exState r' ≤ score exState i) →
        (∀ i, i < r' → score exState r' < score exState i) → r' = r) := by
  have h : 0 < exState.all_cards.length := by
    rw [exState_length]
    exact Nat.zero_lt_one
  exact ⟨h, next_card_minimizes_score exState h⟩

/-- C4: `compute_update` is strictly positive everywhere, is at most 1 on
similarity values at most 1 (in particular on `[-1, 1]`), equals 1 exactly
at similarity 1, and is strictly increasing; the decay constant in force is
`M_decay = 3 > 0`. -/
theorem compute_update_props :
    (∀ s : ℝ, -1 ≤ s → s ≤ 1 → 0 < compute_update s ∧ compute_update s ≤ 1) ∧
    compute_update 1 = 1 ∧
    StrictMono compute_update := by
  refine ⟨?_, ?_, ?_⟩
  · intro s _ h2
    refine ⟨Real.exp_pos _, ?_⟩
    unfold compute_update M_decay
    rw [Real.exp_le_one_iff]
    nlinarith
  · unfold compute_update
    norm_num [Real.exp_zero]
  · intro a b hab
    unfold compute_update M_decay
    apply Real.exp_lt_exp.mpr
    nlinarith

theorem compute_update_props_witness :
    (-1 ≤ (0 : ℝ) ∧ (0 : ℝ) ≤ 1 ∧
      (0 < compute_update 0 ∧ compute_update 0 ≤ 1)) ∧
    ((0 : ℝ) < 1 ∧ compute_update 0 < compute_update 1) :=
  ⟨⟨by norm_num, by norm_num,
    compute_update_props.1 0 (by norm_num) (by norm_num)⟩,
   ⟨by norm_num, compute_update_props.2.2 (by norm_num : (0 : ℝ) < 1)⟩⟩

/-- C3 counterexample: `answer` on an unknown card id is not a `NotFound`
typed failure.  On the empty store the call silently succeeds (no error of
any kind is produced), and on a one-card reachable store it raises an
uncaught `KeyError` — a crash, not a typed error returned to the caller. -/
theorem answer_unknown_not_notfound :
    answer initialState 999 true = (initialState, none) ∧
    (answer exState 999 true).2 = some PyError.keyError := by
  constructor
  · rfl
  · have hdom := (reachable_inv exState_reachable).dom
    have h0 : exState.similarity_matrix (999, 0) = none := by
      have h1 := hdom 999 0
      rw [exState_length] at h1
      rcases hx : exState.similarity_matrix (999, 0) with _ | s
      · rfl
      · rw [hx] at h1
        have := h1.mp (by simp)
        omega
    have hrange : List.range exState.all_cards.length = [0] := by
      rw [exState_length]
      exact (show List.range 1 = [0] from rfl)
    show (answerLoop 999 true (List.range exState.all_cards.length) exState).2 = _
    rw [hrange, answerLoop_fail_head 999 true 0 [] exState h0]

/-- C3 (amended): on a reachable state, `answer` with a card id not present
in the store does not fail with a typed `NotFound` error: when the store is
empty it silently succeeds (returns ok), and when the store is non-empty it
raises an uncaught `KeyError` (a crash); in both cases the state is left
unchanged. -/
theorem answer_unknown_id (st : State) (card_id : ℕ) (b : Bool)
    (hre : Reachable st) (hid : st.all_cards.length ≤ card_id) :
    answer st card_id b =
      (st, if st.all_cards.length = 0 then none else some PyError.keyError) := by
  have hdom := (reachable_inv hre).dom
  cases hn : st.all_cards.length with
  | zero =>
    have hrange : List.range st.all_cards.length = [] := by
      rw [hn]
      rfl
    show answerLoop card_id b (List.range st.all_cards.length) st = _
    rw [hrange]
    simp [hn, answerLoop]
  | succ m =>
    have h0 : st.similarity_matrix (card_id, 0) = none := by
      rcases hx : st.similarity_matrix (card_id, 0) with _ | s
      · rfl
      · have h1 := hdom card_id 0
        rw [hx] at h1
        have := h1.mp (by simp)
        omega
    have hrange : List.range st.all_cards.length =
        0 :: (List.range m).map Nat.succ := by
      rw [hn]
      exact List.range_succ_eq_map m
    show answerLoop card_id b (List.range st.all_cards.length) st = _
    rw [hrange, answerLoop_fail_head card_id b 0 _ st h0]
    rfl

theorem answer_unknown_id_witness :
    Reachable exState ∧ exState.all_cards.length ≤ 999 ∧
    answer exState 999 false =
      (exState,
       if exState.all_cards.length = 0 then none else some PyError.keyError) := by
  have hle : exState.all_cards.length ≤ 999 := by
    rw [exState_length]
    omega
  exact ⟨exState_reachable, hle,
    answer_unknown_id exState 999 false exState_reachable hle⟩

/-- C5: in every reachable state (cards initialised with the positive priors
and modified only by `answer` updates) every card has `alpha > 0` and
`beta > 0`, and consequently its mastery `alpha / (alpha + beta)` lies
strictly between 0 and 1. -/
theorem alpha_beta_positive (st : State) (h : Reachable st) :
    ∀ c ∈ st.all_cards, 0 < c.alpha ∧ 0 < c.beta ∧
      0 < mastery c ∧ mastery c < 1 := by
  intro c hc
  obtain ⟨ha, hb⟩ := (reachable_inv h).pos c hc
  refine ⟨ha, hb, ?_, ?_⟩
  · exact div_pos ha (by linarith)
  · unfold mastery
    rw [div_lt_one (by linarith)]
    linarith

theorem alpha_beta_positive_witness :
    Reachable exState ∧
    ∀ c ∈ exState.all_cards, 0 < c.alpha ∧ 0 < c.beta ∧
      0 < mastery c ∧ mastery c < 1 :=
  ⟨exState_reachable, alpha_beta_positive exState exState_reachable⟩

/-- C6: in every reachable state the similarity matrix is symmetric —
`add_cards` writes both orderings of each pair with the same value, and
`answer` (the only other mutating operation) never writes the matrix, which
the second conjunct states explicitly. -/
theorem similarity_symmetric (st : State) (h : Reachable st) :
    (∀ i j : ℕ, st.similarity_matrix (i, j) = st.similarity_matrix (j, i)) ∧
    (∀ card_id : ℕ, ∀ b : Bool,
      (answer st card_id b).1.similarity_matrix = st.similarity_matrix) :=
  ⟨(reachable_inv h).symm, fun cid b => answer_matrix st cid b⟩

theorem similarity_symmetric_witness :
    Reachable exState ∧
    (∀ i j : ℕ, exState.similarity_matrix (i, j) = exState.similarity_matrix (j, i)) ∧
    (∀ card_id : ℕ, ∀ b : Bool,
      (answer exState card_id b).1.similarity_matrix = exState.similarity_matrix) :=
  ⟨exState_reachable, similarity_symmetric exState exState_reachable⟩

/-- C7: no operation leaves a partial mutation on failure.  An `add_cards`
iteration whose embedding call fails leaves the state untouched; one that
succeeds fully registers the card (store entry plus a stored similarity for
both orderings of every pair).  `answer` on a reachable state either updates
every card in the store (and raises nothing) or raises on its very first
lookup, before any card has been modified, leaving the state exactly as it
was. -/
theorem no_partial_mutation (st : State) (h : Reachable st) :
    (∀ front back : String,
      add_card_op st front back none = (st, some ProviderError.providerFailure)) ∧
    (∀ (front back : String) (emb : List ℝ),
      (add_card_op st front back (some emb)).2 = none ∧
      (add_card st front back emb).all_cards =
        st.all_cards ++ [⟨front, back, PRIOR_ALPHA, PRIOR_BETA, emb⟩] ∧
      ∀ j, j ≤ st.all_cards.length →
        ((add_card st front back emb).similarity_matrix
          (st.all_cards.length, j)).isSome ∧
        ((add_card st front back emb).similarity_matrix
          (j, st.all_cards.length)).isSome) ∧
    (∀ (card_id : ℕ) (b : Bool),
      ((answer st card_id b).2 = none ∧
        ∀ j, j < st.all_cards.length →
          (answer st card_id b).1.all_cards.get? j =
            (st.all_cards.get? j).map
              (applyUpd b (compute_update
                ((st.similarity_matrix (card_id, j)).getD 0)))) ∨
      ((answer st card_id b).2 = some PyError.keyError ∧
        (answer st card_id b).1 = st)) := by
  obtain ⟨hpos, hsymm, hdom⟩ := reachable_inv h
  refine ⟨fun front back => rfl, ?_, ?_⟩
  · intro front back emb
    refine ⟨rfl, add_card_cards st front back emb, ?_⟩
    intro j hj
    have hd := add_card_dom st front back emb hdom
    rw [add_card_length] at hd
    exact ⟨(hd _ j).mpr (by omega), (hd j _).mpr (by omega)⟩
  · intro card_id b
    by_cases hcd : card_id < st.all_cards.length
    · left
      have hsim : ∀ i, i < st.all_cards.length →
          st.similarity_matrix (card_id, i) =
            some ((st.similarity_matrix (card_id, i)).getD 0) := by
        intro i hi
        rcases hx : st.similarity_matrix (card_id, i) with _ | s
        · have h1 := hdom card_id i
          rw [hx] at h1
          have h2 := h1.mpr ⟨hcd, hi⟩
          simp at h2
        · rfl
      have hspec := answerLoop_spec card_id b
        (fun i => (st.similarity_matrix (card_id, i)).getD 0)
        (List.range st.all_cards.length) st (List.nodup_range _)
        (fun i hi => hsim i (List.mem_range.mp hi))
      refine ⟨hspec.1, ?_⟩
      intro j hj
      have h2 := hspec.2 j
      rw [if_pos (List.mem_range.mpr hj)] at h2
      exact h2
    · rcases Nat.eq_zero_or_pos st.all_cards.length with hn | hn
      · left
        constructor
        · show (answerLoop card_id b (List.range st.all_cards.length) st).2 = none
          rw [hn]
          rfl
        · intro j hj
          omega
      · right
        have h0 : st.similarity_matrix (card_id, 0) = none := by
          rcases hx : st.similarity_matrix (card_id, 0) with _ | s
          · rfl
          · have h1 := hdom card_id 0
            rw [hx] at h1
            have := h1.mp (by simp)
            omega
        obtain ⟨m, hm⟩ : ∃ m, st.all_cards.length = m + 1 :=
          ⟨st.all_cards.length - 1, by omega⟩
        have hrange : List.range st.all_cards.length =
            0 :: (List.range m).map Nat.succ := by
          rw [hm]
          exact List.range_succ_eq_map m
        have hfail : answer st card_id b = (st, some PyError.keyError) := by
          show answerLoop card_id b (List.range st.all_cards.length) st = _
          rw [hrange]
          exact answerLoop_fail_head card_id b 0 _ st h0
        rw [hfail]
        exact ⟨rfl, rfl⟩

theorem no_partial_mutation_witness :
    Reachable exState ∧
    add_card_op exState "r" "s" none = (exState, some ProviderError.providerFailure) ∧
    (((answer exState 0 true).2 = none ∧
      ∀ j, j < exState.all_cards.length →
        (answer exState 0 true).1.all_cards.get? j =
          (exState.all_cards.get? j).map
            (applyUpd true (compute_update
              ((exState.similarity_matrix (0, j)).getD 0)))) ∨
     ((answer exState 0 true).2 = some PyError.keyError ∧
      (answer exState 0 true).1 = exState)) :=
  ⟨exState_reachable,
   (no_partial_mutation exState exState_reachable).1 "r" "s",
   (no_partial_mutation exState exState_reachable).2.2 0 true⟩

/-- C8: the `/api/next` route on the empty store returns the 400 "No cards
in the database" error response — a typed, user-visible failure surfaced to
the caller, not a crash — and on every non-empty store it succeeds,
returning the question, answer and id of a card present in the store. -/
theorem next_card_empty_store (st : State) :
    (st.all_cards = [] → get_next_card st = Except.error ApiError.emptyStore) ∧
    (st.all_cards ≠ [] → ∃ cid c, st.all_cards.get? cid = some c ∧
      get_next_card st = Except.ok (c.question, c.answer, cid)) := by
  constructor
  · intro hnil
    obtain ⟨cards, m⟩ := st
    cases cards with
    | nil => rfl
    | cons c0 rest => exact absurd hnil (List.cons_ne_nil _ _)
  · intro hne
    have hn : 0 < st.all_cards.length := List.length_pos.mpr hne
    obtain ⟨r, hmin, hr, _, _⟩ := minByKey_range_spec (score st) _ hn
    have hid : get_next_card_id st = some r := hmin
    rcases hg : st.all_cards.get? r with _ | c
    · have := List.get?_eq_none.mp hg
      omega
    · refine ⟨r, c, hg, ?_⟩
      rw [get_next_card_eq_of_ne st hne, hid]
      simp only [Option.getD_some]
      rw [hg]
      rfl

theorem next_card_empty_store_witness :
    (initialState.all_cards = [] ∧
      get_next_card initialState = Except.error ApiError.emptyStore) ∧
    (exState.all_cards ≠ [] ∧
      ∃ cid c, exState.all_cards.get? cid = some c ∧
        get_next_card exState = Except.ok (c.question, c.answer, cid)) := by
  have hne : exState.all_cards ≠ [] := by
    rw [exState_cards]
    exact List.cons_ne_nil _ _
  exact ⟨⟨rfl, (next_card_empty_store initialState).1 rfl⟩,
         ⟨hne, (next_card_empty_store exState).2 hne⟩⟩

/-- C9 counterexample: `compute_similarity` applies no fallback at a
zero-norm input — the unguarded IEEE division is performed, and at the
zero-norm input `[0], [1]` it produces NaN, which is neither a signalled
error nor the real number 0. -/
theorem unguarded_division_counterexample :
    compute_similarity_float [0] [1] = FloatVal.nan ∧
    FloatVal.nan ≠ FloatVal.real 0 := by
  constructor
  · have h1 : dotList [(0 : ℝ)] [1] = 0 := by
      simp [dotList]
    have h2 : normList [(0 : ℝ)] = 0 := by
      simp [normList]
    show (if normList [(0 : ℝ)] * normList [(1 : ℝ)] = 0
        then (if dotList [(0 : ℝ)] [(1 : ℝ)] = 0 then FloatVal.nan else FloatVal.inf)
        else FloatVal.real
          (dotList [(0 : ℝ)] [(1 : ℝ)] /
            (normList [(0 : ℝ)] * normList [(1 : ℝ)]))) = FloatVal.nan
    rw [h1, h2]
    norm_num
  · intro hh
    exact FloatVal.noConfusion hh

/-- C9 (amended): the core performs the cosine division unguarded; whenever
either input embedding has zero norm the IEEE float result is NaN —
produced silently and stored as-is — rather than a signalled
`DegenerateVector` error or the value 0. -/
theorem zero_norm_gives_nan (e1 e2 : List ℝ)
    (h : normList e1 = 0 ∨ normList e2 = 0) :
    compute_similarity_float e1 e2 = FloatVal.nan ∧
    FloatVal.nan ≠ FloatVal.real 0 := by
  have hnn : normList e1 * normList e2 = 0 := by
    rcases h with h | h <;> rw [h] <;> simp
  have hd : dotList e1 e2 = 0 := by
    rcases h with h | h
    · exact dotList_zero_left e1 e2 (normList_eq_zero h)
    · exact dotList_zero_right e1 e2 (normList_eq_zero h)
  refine ⟨?_, fun hh => FloatVal.noConfusion hh⟩
  show (if normList e1 * normList e2 = 0
      then (if dotList e1 e2 = 0 then FloatVal.nan else FloatVal.inf)
      else FloatVal.real (dotList e1 e2 / (normList e1 * normList e2))) =
    FloatVal.nan
  rw [if_pos hnn, if_pos hd]

theorem zero_norm_gives_nan_witness :
    (normList [(0 : ℝ)] = 0 ∨ normList [(2 : ℝ)] = 0) ∧
    (compute_similarity_float [(0 : ℝ)] [(2 : ℝ)] = FloatVal.nan ∧
     FloatVal.nan ≠ FloatVal.real 0) := by
  have h : normList [(0 : ℝ)] = 0 := by
    simp [normList]
  exact ⟨Or.inl h, zero_norm_gives_nan [0] [2] (Or.inl h)⟩

/-- The uncertainty strategy the implementation uses (app.py line 189): the
inverse total observation count `1 / (alpha + beta)`. -/
noncomputable def uncertainty_inv_count (alpha beta : ℝ) : ℝ := 1 / (alpha + beta)

/-- Modelled from the spec: the other uncertainty candidate named by the
spec's open question, the Beta-distribution variance
`alpha*beta / ((alpha+beta)^2 * (alpha+beta+1))`. -/
noncomputable def uncertainty_variance (alpha beta : ℝ) : ℝ :=
  alpha * beta / ((alpha + beta) ^ 2 * (alpha + beta + 1))

/-- C10: the implementation resolves the spec's open choice as the inverse
total count: every card's score uses `1 / (alpha + beta)` as its
uncertainty term, and on the concrete card `alpha = beta = 1` the score
differs from what the Beta-variance formula would give. -/
theorem uncertainty_is_inverse_count :
    (∀ st : State, ∀ cid : ℕ,
      score st cid =
        (1 - UNCERTAINTY_FACTOR) *
            (((st.all_cards.get? cid).getD default).alpha /
              (((st.all_cards.get? cid).getD default).alpha +
                ((st.all_cards.get? cid).getD default).beta)) -
          UNCERTAINTY_FACTOR *
            uncertainty_inv_count ((st.all_cards.get? cid).getD default).alpha
              ((st.all_cards.get? cid).getD default).beta) ∧
    score ⟨[⟨"q", "a", 1, 1, []⟩], fun _ => none⟩ 0 ≠
      (1 - UNCERTAINTY_FACTOR) * ((1 : ℝ) / (1 + 1)) -
        UNCERTAINTY_FACTOR * uncertainty_variance 1 1 := by
  constructor
  · intro st cid
    rfl
  · simp only [score, uncertainty_variance, UNCERTAINTY_FACTOR]
    norm_num
